import Mathlib

/-!
Verification of the archival pipeline of `webexteamsarchiver.py`.

This file gives a shallow embedding of the functions of
`webexteamsarchiver/webexteamsarchiver.py` that the specification talks
about, and proves (or refutes) the spec's claims against it.

Modelling conventions:
* Python `datetime` values are whole seconds (`Int`); the `timedelta.seconds`
  attribute used by the continuation test is modelled explicitly.
* Network effects (`requests`, the SDK's people endpoint) are parameters:
  a function from the request's input to its outcome.
* The filesystem is an explicit state value threaded through the folder
  lifecycle functions.
* Python exceptions are values of an error type; `raise` is an `Except.error`
  or `Option` result.
-/

namespace WebexArchiver

/-- Exceptions raised by the embedded code. `fileExistsError` is what
`os.makedirs` raises when the directory exists (the spec's *ConflictError*);
`apiError` carries the HTTP status of a `webexteamssdk` `ApiError`;
`malformedResponse` carries the formatted message of `MalformedResponse`;
`httpError` models `requests.Response.raise_for_status`; `exc` stands for any
other Python exception, identified by a code so that distinct exceptions can
be told apart. -/
inductive PyExc where
  | fileExistsError
  | apiError (status : Nat)
  | malformedResponse (message : String)
  | httpError (status : Nat)
  | exc (code : Nat)
deriving DecidableEq, Repr

/-- Fields of a Webex message used by `_archive`: sender email (`personEmail`),
sender identifier (`personId`), creation timestamp (`created`, in whole
seconds), and the list of attachment URLs (`files`; the empty list plays the
role of a falsy/absent value, for which the Python loop body does nothing). -/
structure Message where
  personEmail : String
  personId : String
  created : Int
  files : List String
deriving DecidableEq, Repr

/-- Python `timedelta.seconds` for a difference of two timestamps given in
whole seconds: the normalised seconds component of `prev - cur`, that is
`(prev - cur) % 86400` with Python's floored modulo, which is nonnegative
for the positive divisor (Lean's `Int.emod` agrees with it there). -/
def timedeltaSeconds (prev cur : Int) : Int :=
  (prev - cur) % 86400

/-- Continuation test from the loop body of `WebexTeamsArchiver._archive`:
`msg.personEmail == previous_person_email and
(previous_msg_datetime - msg.created).seconds < 60`. -/
def continuationCond (prevEmail : String) (prevCreated : Int) (m : Message) : Bool :=
  m.personEmail == prevEmail && timedeltaSeconds prevCreated m.created < 60

/-- Indexed traversal computing `repeat_indeces` in `_archive`: the state
carries the enumeration index and, after the first message, the previous
message's `personEmail` and `created` (for index 0 the `index > 0` guard
short-circuits, modelled by the `none` case). -/
def repeatIndecesAux : Nat → Option (String × Int) → List Message → List Nat
  | _, _, [] => []
  | i, none, m :: rest =>
      repeatIndecesAux (i + 1) (some (m.personEmail, m.created)) rest
  | i, some (pe, pt), m :: rest =>
      if continuationCond pe pt m then
        i :: repeatIndecesAux (i + 1) (some (m.personEmail, m.created)) rest
      else
        repeatIndecesAux (i + 1) (some (m.personEmail, m.created)) rest

/-- List `repeat_indeces` built by the enumeration loop of `_archive`
(before the optional reversal step). -/
def repeat_indeces (msgs : List Message) : List Nat :=
  repeatIndecesAux 0 none msgs

/-- Continuation rule as the spec words it (for comparison with the code):
sender emails equal and the absolute time gap strictly below 60 seconds. -/
def specContinuation (prev cur : Message) : Bool :=
  cur.personEmail == prev.personEmail && (prev.created - cur.created).natAbs < 60

/-- Ordering step of `_archive`: it first computes `repeat_indeces` over the
messages in API-delivery order, then, when `reverse_order` is set, maps each
flagged index `i` to `len(processed_messages) - i` and reverses the message
list. Returns the pair (message sequence, continuation flag positions). -/
def group (msgs : List Message) (reverse_order : Bool) : List Message × List Nat :=
  let flags := repeat_indeces msgs
  if reverse_order then
    (msgs.reverse, flags.map fun i => msgs.length - i)
  else
    (msgs, flags)

/-- Sequence of URLs passed to `self.file_details` by the attachment loop of
`_archive`, in order: one call per occurrence of a URL in a message's
`files` list (the loop has no membership guard on the `attachments` dict). -/
def fileProbeCalls : List Message → List String
  | [] => []
  | m :: rest => m.files ++ fileProbeCalls rest

/-- Key insertion of the Python dict assignment `attachments[url] = ...`:
an existing key keeps its position, a new key is appended. -/
def dictInsertKey (ks : List String) (u : String) : List String :=
  if u ∈ ks then ks else ks ++ [u]

/-- Keys of the `attachments` dict after the loop of `_archive`. -/
def attachments_keys (msgs : List Message) : List String :=
  (fileProbeCalls msgs).foldl dictInsertKey []

/-- Record returned by `sdk.people.get` for a person that exists. -/
structure PersonRecord where
  id : String
  displayName : String
  avatar : Option String
deriving DecidableEq, Repr

/-- Value stored in the `people` dict: either the record returned by the
people endpoint, or the `UserNotFound` placeholder namedtuple that
`_archive` builds on a 404 (`displayName="Person Not Found"`, no avatar). -/
inductive Person where
  | resolved (p : PersonRecord)
  | userNotFound (id : String) (emails : List String) (displayName : String)
      (avatar : Option String)
deriving DecidableEq, Repr

/-- Outcome of one call of `self.sdk.people.get(personId)`: a record, or an
`ApiError` carrying its HTTP status (404 meaning not found). -/
inductive LookupOutcome where
  | ok (p : PersonRecord)
  | apiError (status : Nat)
deriving DecidableEq, Repr

/-- Body of the `try`/`except ApiError` around `self.sdk.people.get` in
`_archive`: a 404 is turned into the cached `UserNotFound` placeholder,
any other `ApiError` is re-raised. -/
def resolvePerson (svc : String → LookupOutcome) (email pid : String) :
    Except PyExc Person :=
  match svc pid with
  | .ok p => .ok (.resolved p)
  | .apiError status =>
      if status == 404 then
        .ok (.userNotFound pid [email] "Person Not Found" none)
      else
        .error (.apiError status)

/-- State of the identity-resolution pass of `_archive`: the `people` dict
(insertion-ordered association list) and the sequence of sender emails for
which a call of `self.sdk.people.get` was issued. -/
structure PeopleState where
  people : List (String × Person)
  lookups : List String
deriving DecidableEq, Repr

/-- Identity-resolution aspect of the message loop of `_archive`: for each
message, when `msg.personEmail not in people`, query the people endpoint by
`msg.personId` (recording the queried email in `lookups`) and store the
result — or the `UserNotFound` placeholder on a 404 — under the email; a
non-404 `ApiError` aborts the run. -/
def processPeople (svc : String → LookupOutcome) :
    List Message → PeopleState → Except PyExc PeopleState
  | [], st => .ok st
  | m :: ms, st =>
      if st.people.any (fun kv => kv.1 == m.personEmail) then
        processPeople svc ms st
      else
        match resolvePerson svc m.personEmail m.personId with
        | .error e => .error e
        | .ok p =>
            processPeople svc ms
              ⟨st.people ++ [(m.personEmail, p)], st.lookups ++ [m.personEmail]⟩

/-- Value bound to `content_length` in the `File` namedtuple:
`r.headers.get("Content-Length", 0)` yields the header string when present
and the integer `0` otherwise (the 404 branch also passes the literal `0`). -/
inductive CLValue where
  | int (n : Nat)
  | str (s : String)
deriving DecidableEq, Repr

/-- `File` namedtuple of the source:
`File = namedtuple("File", "content_disposition content_length content_type filename deleted")`. -/
structure File where
  content_disposition : String
  content_length : CLValue
  content_type : String
  filename : String
  deleted : Bool
deriving DecidableEq, Repr

/-- Response of the HEAD request issued by `file_details`: the status code and
the three headers it reads (absent header = `none`). -/
structure HeadResponse where
  status_code : Nat
  content_disposition : Option String
  content_length : Option String
  content_type : Option String
deriving DecidableEq, Repr

/-- Lowercase pattern characters matched case-insensitively against a prefix
of the subject, as `re.IGNORECASE` does for literal characters. -/
def startsWithCI : List Char → List Char → Bool
  | [], _ => true
  | _ :: _, [] => false
  | p :: ps, c :: cs => p == c.toLower && startsWithCI ps cs

/-- Match of `(.+?)\"` against the characters following `filename=\"`: the
shortest non-empty run of characters up to a closing double quote, where
`.` matches anything except a newline (no `re.DOTALL`). -/
def ngCapture : List Char → Option (List Char)
  | [] => none
  | c :: rest =>
      if c == '\n' then none
      else
        match rest with
        | '\"' :: _ => some [c]
        | _ => (ngCapture rest).map (fun l => c :: l)

/-- Literal characters of the pattern `filename=\"` (lowercased). -/
def filenamePat : List Char := "filename=\"".toList

/-- Model of `re.search(r"filename=\"(.+?)\"", s, re.I)`: the capture group of
the leftmost position at which the whole pattern matches, scanning left to
right. -/
def findFilename : List Char → Option (List Char)
  | [] => none
  | c :: rest =>
      if startsWithCI filenamePat (c :: rest) then
        match ngCapture ((c :: rest).drop 10) with
        | some cap => some cap
        | none => findFilename rest
      else
        findFilename rest

/-- `WebexTeamsArchiver.file_details`: HEAD the URL; on a 404 return the
deleted-file record `File("", 0, "", "", True)`; otherwise
`raise_for_status` (an error status in `[400, 600)` raises); then search the
`Content-Disposition` header (defaulting to the empty string) for a
`filename=\"...\"` group, raising `MalformedResponse` with a message naming
the URL when none is found, and otherwise return the populated `File`. -/
def file_details (url : String) (r : HeadResponse) : Except PyExc File :=
  if r.status_code == 404 then
    .ok ⟨"", .int 0, "", "", true⟩
  else if 400 ≤ r.status_code ∧ r.status_code < 600 then
    .error (.httpError r.status_code)
  else
    let cd := r.content_disposition.getD ""
    match findFilename cd.toList with
    | none =>
        .error (.malformedResponse
          ("Failed to find filename='' in " ++ cd ++ " for url " ++ url))
    | some cap =>
        .ok ⟨cd,
             (match r.content_length with
              | some v => .str v
              | none => .int 0),
             r.content_type.getD "",
             String.mk cap,
             false⟩

/-- Response of the streaming GET issued by `_download_file` when no
transport exception occurs: status code and body. -/
structure DLResponse where
  status_code : Nat
  body : String
deriving DecidableEq, Repr

/-- First raised error wins, as `concurrent.futures.as_completed` plus
`future.result()` surfaces one failure. -/
def firstErr : Option PyExc → Option PyExc → Option PyExc
  | some e, _ => some e
  | none, e2 => e2

/-- `WebexTeamsArchiver._download_file`: issue the GET; a transport exception
propagates; otherwise the response body is streamed into the destination
file regardless of the response's status code (there is no status check).
The filesystem is the list of (filename, contents) writes performed. -/
def download_file (net : String → Except PyExc DLResponse)
    (fs : List (String × String)) (url filename : String) :
    List (String × String) × Option PyExc :=
  match net url with
  | .error e => (fs, some e)
  | .ok r => (fs ++ [(filename, r.body)], none)

/-- `WebexTeamsArchiver._download_files`: all (url, filename) pairs are
submitted to the pool and every task runs; afterwards the first failure
among the collected futures, if any, is re-raised. -/
def download_files (net : String → Except PyExc DLResponse) :
    List (String × String) → List (String × String) →
    List (String × String) × Option PyExc
  | [], fs => (fs, none)
  | (url, fname) :: rest, fs =>
      let r1 := download_file net fs url fname
      let r2 := download_files net rest r1.1
      (r2.1, firstErr r1.2 r2.2)

/-- Failure of one download as the spec words it: a network error (raised
exception) or a non-success HTTP status of the body request. -/
def specDownloadFailed (r : Except PyExc DLResponse) : Bool :=
  match r with
  | .error _ => true
  | .ok resp => 400 ≤ resp.status_code

/-- Archive working directory. The only observable the claims need is
whether `_archive` has written transcript output into it. -/
structure FolderTree where
  populated : Bool
deriving DecidableEq, Repr

/-- On-disk state around one `archive_room` run: the archive folder (absent
or present with its contents) and the `<folder>.tgz` file in the current
working directory (absent, or `some complete` with `complete = false` for a
partially-written file). -/
structure Disk where
  folder : Option FolderTree
  tgz : Option Bool
deriving DecidableEq, Repr

/-- `WebexTeamsArchiver._tear_down_folder`: `shutil.rmtree` of the archive
folder when it is a directory, nothing otherwise. It touches nothing else
on disk. -/
def tear_down_folder (d : Disk) : Disk :=
  if d.folder.isSome then { d with folder := none } else d

/-- `WebexTeamsArchiver._setup_folder` restricted to the main folder: when
the folder exists and `overwrite_folder` is set, `shutil.rmtree` it first;
then `os.makedirs` creates a fresh empty folder, raising `FileExistsError`
(the spec's *ConflictError*) when the folder still exists. -/
def setup_folder (overwrite_folder : Bool) (d : Disk) : Disk × Option PyExc :=
  let d1 := if d.folder.isSome && overwrite_folder then { d with folder := none } else d
  match d1.folder with
  | some _ => (d1, some .fileExistsError)
  | none => ({ d1 with folder := some { populated := false } }, none)

/-- Effect of `self._archive(...)` on disk: the step function acts on the
archive folder only (all its writes are under the folder path) and may
raise; the folder contents it leaves behind are kept even on failure. -/
def applyArchive (step : FolderTree → FolderTree × Option PyExc) (d : Disk) :
    Disk × Option PyExc :=
  match d.folder with
  | none => (d, none)
  | some f => ({ d with folder := some (step f).1 }, (step f).2)

/-- `WebexTeamsArchiver._compress_folder`: `tarfile.open(name + ".tgz", "w:gz")`
creates (truncates) the tgz file before `tar.add` runs, so a failure of the
add step (`tarAddFail`) leaves a partially-written tgz on disk; on success
the tgz is complete. -/
def compress_folder (tarAddFail : Option PyExc) (d : Disk) : Disk × Option PyExc :=
  match tarAddFail with
  | none => ({ d with tgz := some true }, none)
  | some e => ({ d with tgz := some false }, some e)

/-- Orchestration of `WebexTeamsArchiver.archive_room` after
`_gather_room_information`: `_setup_folder` outside the `try` block, then
`_archive` and `_compress_folder` inside it with
`except Exception: self._tear_down_folder(); raise`, then the optional
`delete_folder` teardown on success. -/
def archive_room (step : FolderTree → FolderTree × Option PyExc)
    (tarAddFail : Option PyExc) (overwrite_folder delete_folder : Bool)
    (d : Disk) : Disk × Except PyExc Unit :=
  match setup_folder overwrite_folder d with
  | (d1, some e) => (d1, .error e)
  | (d1, none) =>
      match applyArchive step d1 with
      | (d2, some e) => (tear_down_folder d2, .error e)
      | (d2, none) =>
          match compress_folder tarAddFail d2 with
          | (d3, some e) => (tear_down_folder d3, .error e)
          | (d3, none) =>
              if delete_folder then (tear_down_folder d3, .ok ())
              else (d3, .ok ())

/-! ### Concrete inputs used by counterexamples and witnesses -/

/-- Chronologically ordered pair, same sender, 10 seconds apart: first message. -/
def exChron0 : Message := ⟨"a@x.com", "p1", 0, []⟩

/-- Chronologically ordered pair, same sender, 10 seconds apart: second message
(created 10 seconds after the first). -/
def exChron1 : Message := ⟨"a@x.com", "p1", 10, []⟩

/-- Message carrying one attachment URL. -/
def exMsgWithFile : Message := ⟨"a@x.com", "p1", 0, ["https://files/u1"]⟩

/-- Reverse-chronological pair, same sender, 10 seconds apart (the delivery
order of the Webex API): newer message first. -/
def exRev0 : Message := ⟨"a@x.com", "p1", 10, []⟩

/-- Reverse-chronological pair, same sender, 10 seconds apart: older message. -/
def exRev1 : Message := ⟨"a@x.com", "p1", 0, []⟩

/-- Identity service whose every query reports 404 not-found. -/
def svcNotFound : String → LookupOutcome := fun _ => .apiError 404

/-- Expected final state of the identity pass over two messages from
`a@x.com` against `svcNotFound`: the placeholder is cached under the email
and exactly one lookup was issued. -/
def exPeopleState : PeopleState :=
  ⟨[("a@x.com", .userNotFound "p1" ["a@x.com"] "Person Not Found" none)], ["a@x.com"]⟩

/-- Network in which every GET completes with HTTP status 404 and the error
page as body (no exception is raised). -/
def netStatus404 : String → Except PyExc DLResponse := fun _ => .ok ⟨404, "Not Found"⟩

/-- Network in which every GET raises a transport exception. -/
def netRaises : String → Except PyExc DLResponse := fun _ => .error (.exc 9)

/-- Archive step that populates the folder and then raises exception 7. -/
def failingArchiveStep : FolderTree → FolderTree × Option PyExc :=
  fun _ => (⟨true⟩, some (.exc 7))

/-- Archive step that populates the folder and succeeds. -/
def okArchiveStep : FolderTree → FolderTree × Option PyExc :=
  fun _ => (⟨true⟩, none)

/-- Disk with neither the archive folder nor a tgz file. -/
def emptyDisk : Disk := ⟨none, none⟩

/-- Disk on which a populated directory of the archive-folder name exists. -/
def diskWithFolder : Disk := ⟨some ⟨true⟩, none⟩

/-- Reverse-chronological two-message list with one continuation pair. -/
def exRevList : List Message := [exRev0, exRev1]

/-- Two messages from the same sender, reverse-chronological, 10 s apart. -/
def exSameSender : List Message :=
  [⟨"a@x.com", "p1", 100, []⟩, ⟨"a@x.com", "p1", 90, []⟩]

/-- HEAD response for a deleted file. -/
def respDeleted : HeadResponse := ⟨404, none, none, none⟩

/-- Success HEAD response whose content-disposition has no parsable filename. -/
def respNoFilename : HeadResponse := ⟨200, some "attachment", none, none⟩

/-! ### Helper lemmas -/

/-- Membership in the indexed traversal, relative to a non-empty previous
state: either the head message continues the carried previous state, or an
interior adjacent pair of the remaining list is flagged. -/
theorem mem_repeatIndecesAux :
    ∀ (msgs : List Message) (k j : Nat) (pe : String) (pt : Int),
      j ∈ repeatIndecesAux k (some (pe, pt)) msgs ↔
        ((j = k ∧ ∃ c, msgs[0]? = some c ∧ continuationCond pe pt c = true) ∨
         (∃ i p c, j = k + 1 + i ∧ msgs[i]? = some p ∧ msgs[i + 1]? = some c ∧
            continuationCond p.personEmail p.created c = true))
  | [], k, j, pe, pt => by simp [repeatIndecesAux]
  | m :: rest, k, j, pe, pt => by
    have ih := mem_repeatIndecesAux rest (k + 1) j m.personEmail m.created
    constructor
    · intro h
      have h' : (continuationCond pe pt m = true ∧ j = k) ∨
          j ∈ repeatIndecesAux (k + 1) (some (m.personEmail, m.created)) rest := by
        by_cases hc : continuationCond pe pt m = true
        · rw [repeatIndecesAux, if_pos hc] at h
          rcases List.mem_cons.mp h with h | h
          · exact .inl ⟨hc, h⟩
          · exact .inr h
        · rw [repeatIndecesAux, if_neg hc] at h
          exact .inr h
      rcases h' with ⟨hc, rfl⟩ | hmem
      · exact .inl ⟨rfl, m, by simp, hc⟩
      · rcases ih.mp hmem with ⟨hj, c, hc0, hcc⟩ | ⟨i, p, c, hj, hp, hc1, hcc⟩
        · exact .inr ⟨0, m, c, by omega, by simp, by simpa using hc0, hcc⟩
        · exact .inr ⟨i + 1, p, c, by omega, by simpa using hp, by simpa using hc1, hcc⟩
    · intro h
      rcases h with ⟨rfl, c, hc0, hcc⟩ | ⟨i, p, c, hj, hp, hc1, hcc⟩
      · have hcm : m = c := by simpa using hc0
        subst hcm
        rw [repeatIndecesAux, if_pos hcc]
        exact List.mem_cons_self _ _
      · cases i with
        | zero =>
          have hpm : m = p := by simpa using hp
          subst hpm
          have hmem : j ∈ repeatIndecesAux (k + 1) (some (m.personEmail, m.created)) rest :=
            ih.mpr (.inl ⟨by omega, c, by simpa using hc1, hcc⟩)
          by_cases hc : continuationCond pe pt m = true
          · rw [repeatIndecesAux, if_pos hc]; exact List.mem_cons_of_mem _ hmem
          · rw [repeatIndecesAux, if_neg hc]; exact hmem
        | succ i' =>
          have hmem : j ∈ repeatIndecesAux (k + 1) (some (m.personEmail, m.created)) rest :=
            ih.mpr (.inr ⟨i', p, c, by omega, by simpa using hp, by simpa using hc1, hcc⟩)
          by_cases hc : continuationCond pe pt m = true
          · rw [repeatIndecesAux, if_pos hc]; exact List.mem_cons_of_mem _ hmem
          · rw [repeatIndecesAux, if_neg hc]; exact hmem

/-- Characterization of the flag positions computed by the enumeration loop:
`j` is flagged iff `j ≥ 1` and the adjacent pair at `(j-1, j)` satisfies the
code's continuation test. -/
theorem mem_repeat_indeces_iff (msgs : List Message) (j : Nat) :
    j ∈ repeat_indeces msgs ↔
      (1 ≤ j ∧ ∃ p c, msgs[j - 1]? = some p ∧ msgs[j]? = some c ∧
        continuationCond p.personEmail p.created c = true) := by
  cases msgs with
  | nil => simp [repeat_indeces, repeatIndecesAux]
  | cons m rest =>
    have hstep : repeat_indeces (m :: rest) =
        repeatIndecesAux 1 (some (m.personEmail, m.created)) rest := rfl
    rw [hstep, mem_repeatIndecesAux]
    constructor
    · rintro (⟨rfl, c, hc0, hcc⟩ | ⟨i, p, c, rfl, hp, hc1, hcc⟩)
      · exact ⟨le_refl 1, m, c, by simp, by simpa using hc0, hcc⟩
      · refine ⟨by omega, p, c, ?_, ?_, hcc⟩
        · have : 1 + 1 + i - 1 = i + 1 := by omega
          rw [this, List.getElem?_cons_succ]
          exact hp
        · have : (1 + 1 + i) = (i + 1) + 1 := by omega
          rw [this, List.getElem?_cons_succ]
          exact hc1
    · rintro ⟨hj, p, c, hp, hc1, hcc⟩
      rcases Nat.exists_eq_add_of_le hj with ⟨i, rfl⟩
      cases i with
      | zero =>
        have hpm : m = p := by simpa using hp
        subst hpm
        exact .inl ⟨rfl, c, by simpa using hc1, hcc⟩
      | succ i' =>
        have h1 : 1 + (i' + 1) - 1 = i' + 1 := by omega
        rw [h1, List.getElem?_cons_succ] at hp
        have h2 : 1 + (i' + 1) = (i' + 1) + 1 := by omega
        rw [h2, List.getElem?_cons_succ] at hc1
        exact .inr ⟨i', p, c, by omega, hp, hc1, hcc⟩

/-- Folding dict-key insertion over any URL sequence preserves duplicate-free
keys. -/
theorem nodup_foldl_dictInsertKey :
    ∀ (l ks : List String), ks.Nodup → (l.foldl dictInsertKey ks).Nodup
  | [], ks, h => h
  | u :: rest, ks, h => by
    rw [List.foldl_cons]
    apply nodup_foldl_dictInsertKey rest
    unfold dictInsertKey
    by_cases hu : u ∈ ks
    · rw [if_pos hu]; exact h
    · rw [if_neg hu]
      exact List.nodup_append.mpr ⟨h, List.nodup_singleton u,
        fun a ha hb => hu (by rwa [List.mem_singleton.mp hb] at ha)⟩

/-- Number of probe calls for a URL: one per occurrence of the URL in the
`files` lists, summed over all messages. -/
theorem count_fileProbeCalls :
    ∀ (msgs : List Message) (u : String),
      (fileProbeCalls msgs).count u = (msgs.map fun m => m.files.count u).sum
  | [], u => rfl
  | m :: rest, u => by
    rw [fileProbeCalls, List.count_append, count_fileProbeCalls rest u]
    simp

/-- Invariant of the identity-resolution pass: the dict keys are exactly the
queried emails in order, the queried emails are duplicate-free, and an email
has been queried in the final state iff it was already queried or some
processed message carries it. -/
theorem processPeople_inv (svc : String → LookupOutcome) :
    ∀ (msgs : List Message) (st st' : PeopleState),
      processPeople svc msgs st = .ok st' →
      st.people.map Prod.fst = st.lookups → st.lookups.Nodup →
      (st'.people.map Prod.fst = st'.lookups ∧ st'.lookups.Nodup ∧
        ∀ e, e ∈ st'.lookups ↔ (e ∈ st.lookups ∨ ∃ m ∈ msgs, m.personEmail = e))
  | [], st, st', h, hkeys, hnd => by
    rw [processPeople] at h
    cases h
    exact ⟨hkeys, hnd, fun e => by simp⟩
  | m :: ms, st, st', h, hkeys, hnd => by
    rw [processPeople] at h
    by_cases hin : st.people.any (fun kv => kv.1 == m.personEmail) = true
    · rw [if_pos hin] at h
      have hmem : m.personEmail ∈ st.lookups := by
        rcases List.any_eq_true.mp hin with ⟨kv, hkv, hbeq⟩
        rw [← hkeys]
        exact (beq_iff_eq.mp hbeq) ▸ List.mem_map_of_mem Prod.fst hkv
      obtain ⟨h1, h2, h3⟩ := processPeople_inv svc ms st st' h hkeys hnd
      refine ⟨h1, h2, fun e => (h3 e).trans ?_⟩
      constructor
      · rintro (he | ⟨m', hm', rfl⟩)
        · exact .inl he
        · exact .inr ⟨m', List.mem_cons_of_mem _ hm', rfl⟩
      · rintro (he | ⟨m', hm', rfl⟩)
        · exact .inl he
        · rcases List.mem_cons.mp hm' with rfl | hm'
          · exact .inl hmem
          · exact .inr ⟨m', hm', rfl⟩
    · rw [if_neg hin] at h
      have hnotmem : m.personEmail ∉ st.lookups := by
        rw [← hkeys]
        intro hc
        rcases List.mem_map.mp hc with ⟨kv, hkv, hfst⟩
        exact hin (List.any_eq_true.mpr ⟨kv, hkv, beq_iff_eq.mpr hfst⟩)
      cases hres : resolvePerson svc m.personEmail m.personId with
      | error e => rw [hres] at h; cases h
      | ok p =>
        rw [hres] at h
        have hkeys1 : (st.people ++ [(m.personEmail, p)]).map Prod.fst =
            st.lookups ++ [m.personEmail] := by
          rw [List.map_append, hkeys]; rfl
        have hnd1 : (st.lookups ++ [m.personEmail]).Nodup :=
          List.nodup_append.mpr ⟨hnd, List.nodup_singleton _,
            fun a ha hb => hnotmem (by rwa [List.mem_singleton.mp hb] at ha)⟩
        obtain ⟨h1, h2, h3⟩ := processPeople_inv svc ms
          ⟨st.people ++ [(m.personEmail, p)], st.lookups ++ [m.personEmail]⟩
          st' h hkeys1 hnd1
        refine ⟨h1, h2, fun e => (h3 e).trans ?_⟩
        constructor
        · rintro (he | ⟨m', hm', rfl⟩)
          · rcases List.mem_append.mp he with he | he
            · exact .inl he
            · exact .inr ⟨m, List.mem_cons_self _ _, (List.mem_singleton.mp he).symm⟩
          · exact .inr ⟨m', List.mem_cons_of_mem _ hm', rfl⟩
        · rintro (he | ⟨m', hm', rfl⟩)
          · exact .inl (List.mem_append.mpr (.inl he))
          · rcases List.mem_cons.mp hm' with rfl | hm'
            · exact .inl (List.mem_append.mpr (.inr (List.mem_singleton.mpr rfl)))
            · exact .inr ⟨m', hm', rfl⟩

/-- One failure among the submitted downloads is exactly what makes the
collection step fail: the second component of `download_files` is `some`
iff some submitted URL's GET raised. -/
theorem download_files_isSome_iff (net : String → Except PyExc DLResponse) :
    ∀ (links fs : List (String × String)),
      (download_files net links fs).2.isSome = true ↔
        ∃ p ∈ links, ∃ e, net p.1 = .error e
  | [], fs => by simp [download_files]
  | (url, fname) :: rest, fs => by
    cases hn : net url with
    | error e =>
      rw [download_files]
      simp only [download_file, hn]
      constructor
      · intro _; exact ⟨(url, fname), List.mem_cons_self _ _, e, hn⟩
      · intro _; simp [firstErr]
    | ok r =>
      rw [download_files]
      simp only [download_file, hn]
      have ih := download_files_isSome_iff net rest (fs ++ [(fname, r.body)])
      constructor
      · intro h
        rcases (by simpa [firstErr] using h :
            (download_files net rest (fs ++ [(fname, r.body)])).2.isSome = true) with h'
        rcases ih.mp h' with ⟨p, hp, e, he⟩
        exact ⟨p, List.mem_cons_of_mem _ hp, e, he⟩
      · rintro ⟨p, hp, e, he⟩
        rcases List.mem_cons.mp hp with rfl | hp
        · rw [hn] at he; cases he
        · have := ih.mpr ⟨p, hp, e, he⟩
          simpa [firstErr] using this

/-- Teardown removes the archive folder. -/
theorem tear_down_folder_folder (d : Disk) : (tear_down_folder d).folder = none := by
  unfold tear_down_folder
  cases hf : d.folder <;> simp [hf]

/-- Teardown leaves the tgz file alone. -/
theorem tear_down_folder_tgz (d : Disk) : (tear_down_folder d).tgz = d.tgz := by
  unfold tear_down_folder
  cases hf : d.folder <;> simp [hf]

/-! ### Claims -/

/-- C1 counterexample: the chronologically ordered pair `exChron0, exChron1`
(same sender, created 10 seconds apart) satisfies the spec's condition —
equal sender emails and absolute gap strictly below 60 seconds — yet the
code flags nothing, because `(previous_msg_datetime - msg.created).seconds`
normalises the negative difference `-10 s` to `86390`, which is not below
60. The claim's "iff" is therefore false as stated. -/
theorem c1_claim_counterexample :
    specContinuation exChron0 exChron1 = true ∧
    repeat_indeces [exChron0, exChron1] = [] := by decide

/-- C1 (amended): a message at position `j > 0` is flagged as a continuation
iff its sender email equals the previous message's sender email and the
Python `timedelta.seconds` value of (previous created − current created) —
the signed difference reduced modulo 86400 seconds — is strictly below 60.
For reverse-chronological input with gaps under one day this coincides with
"gap < 60 s" (and a gap of exactly 60 seconds or more is not flagged), but
the absolute-gap reading of the original claim fails. -/
theorem c1_continuation_rule (msgs : List Message) (j : Nat) :
    j ∈ repeat_indeces msgs ↔
      (1 ≤ j ∧ ∃ p c, msgs[j - 1]? = some p ∧ msgs[j]? = some c ∧
        c.personEmail = p.personEmail ∧ timedeltaSeconds p.created c.created < 60) := by
  rw [mem_repeat_indeces_iff]
  constructor
  · rintro ⟨hj, p, c, hp, hc, hcc⟩
    rw [continuationCond, Bool.and_eq_true, beq_iff_eq, decide_eq_true_eq] at hcc
    exact ⟨hj, p, c, hp, hc, hcc.1, hcc.2⟩
  · rintro ⟨hj, p, c, hp, hc, h1, h2⟩
    refine ⟨hj, p, c, hp, hc, ?_⟩
    rw [continuationCond, Bool.and_eq_true, beq_iff_eq, decide_eq_true_eq]
    exact ⟨h1, h2⟩

/-- C2 counterexample: a URL listed by two messages is passed to
`file_details` twice — the attachment loop has no membership guard, so the
probe is invoked once per occurrence, not at most once per unique URL. -/
theorem c2_claim_counterexample :
    (fileProbeCalls [exMsgWithFile, exMsgWithFile]).count "https://files/u1" = 2 ∧
    ¬ (fileProbeCalls [exMsgWithFile, exMsgWithFile]).count "https://files/u1" ≤ 1 := by
  decide

/-- C2 (amended): the `attachments` dict holds at most one entry per unique
URL (later probes overwrite the same key), but `file_details` itself is
invoked once per occurrence of a URL in the message file lists: its call
count for a URL is the sum over messages of the URL's occurrences in that
message's `files` list. -/
theorem c2_probe_per_occurrence (msgs : List Message) (u : String) :
    (attachments_keys msgs).count u ≤ 1 ∧
    (fileProbeCalls msgs).count u = (msgs.map fun m => m.files.count u).sum := by
  constructor
  · exact List.nodup_iff_count_le_one.mp
      (nodup_foldl_dictInsertKey (fileProbeCalls msgs) [] List.nodup_nil) u
  · exact count_fileProbeCalls msgs u

/-- C3: when `_setup_folder` has succeeded and an exception is raised inside
the `try` block — by `_archive` or by `_compress_folder` — `archive_room`
tears the archive folder down (no archive folder survives, whatever state
`_archive` left it in) and re-raises exactly the exception that was raised. -/
theorem c3_failure_teardown (step : FolderTree → FolderTree × Option PyExc)
    (tarAddFail : Option PyExc) (ow del : Bool) (d d' : Disk) (e : PyExc)
    (hset : (setup_folder ow d).2 = none)
    (hrun : archive_room step tarAddFail ow del d = (d', .error e)) :
    d'.folder = none ∧
      ((applyArchive step (setup_folder ow d).1).2 = some e ∨
        ((applyArchive step (setup_folder ow d).1).2 = none ∧ tarAddFail = some e)) := by
  rcases hs : setup_folder ow d with ⟨d1, e1⟩
  rw [hs] at hset
  have he1 : e1 = none := hset
  subst he1
  simp only [archive_room, hs] at hrun
  rw [show ((d1, (none : Option PyExc)).1) = d1 from rfl]
  cases ha : applyArchive step d1 with
  | mk d2 e2 =>
    rw [ha] at hrun
    cases e2 with
    | some e2 =>
      simp only [Prod.mk.injEq, Except.error.injEq] at hrun
      obtain ⟨h1, rfl⟩ := hrun
      exact ⟨h1 ▸ tear_down_folder_folder d2, .inl rfl⟩
    | none =>
      cases taf : tarAddFail with
      | some e3 =>
        rw [taf] at hrun
        simp only [compress_folder, Prod.mk.injEq, Except.error.injEq] at hrun
        obtain ⟨h1, rfl⟩ := hrun
        exact ⟨h1 ▸ tear_down_folder_folder _, .inr ⟨rfl, rfl⟩⟩
      | none =>
        rw [taf] at hrun
        simp only [compress_folder] at hrun
        cases del <;> simp at hrun

/-- C3 witness: a run in which `_archive` raises exception 7 on the empty
disk ends with the folder removed and that exception surfaced. -/
theorem c3_failure_teardown_witness :
    (⟨none, none⟩ : Disk).folder = none ∧
      ((applyArchive failingArchiveStep (setup_folder true emptyDisk).1).2 =
          some (.exc 7) ∨
        ((applyArchive failingArchiveStep (setup_folder true emptyDisk).1).2 = none ∧
          (none : Option PyExc) = some (.exc 7))) :=
  c3_failure_teardown failingArchiveStep none true false emptyDisk ⟨none, none⟩
    (.exc 7) rfl rfl

/-- C4: with `reverse_order` set, the output sequence is the reverse of the
forward sequence and the continuation flags are mapped by `i ↦ N - i`
(`N` the sequence length), preserving the number of flagged positions; each
flagged forward pair `(j-1, j)` sits at the mirrored adjacent positions
`N-1-j, N-j` of the reversed sequence, and the mirrored flag `N - j` is
among the reversed flags. -/
theorem c4_reverse_reindex (msgs : List Message) :
    ((group msgs true).1 = (group msgs false).1.reverse ∧
     (group msgs true).2 = (group msgs false).2.map (fun i => msgs.length - i) ∧
     (group msgs true).2.length = (group msgs false).2.length) ∧
    ∀ j, j ∈ (group msgs false).2 →
      0 < j ∧ j < msgs.length ∧
      (group msgs true).1[msgs.length - 1 - j]? = msgs[j]? ∧
      (group msgs true).1[msgs.length - j]? = msgs[j - 1]? ∧
      msgs.length - j ∈ (group msgs true).2 := by
  constructor
  · exact ⟨rfl, rfl, by simp [group]⟩
  · intro j hj
    have hj0 : j ∈ repeat_indeces msgs := by simpa [group] using hj
    obtain ⟨h1, p, c, hp, hc, hcc⟩ := (mem_repeat_indeces_iff msgs j).mp hj0
    have hlen : j < msgs.length := by
      by_contra hge
      rw [List.getElem?_eq_none (by omega)] at hc
      cases hc
    refine ⟨by omega, hlen, ?_, ?_, ?_⟩
    · rw [show (group msgs true).1 = msgs.reverse from rfl,
        List.getElem?_reverse (by omega : msgs.length - 1 - j < msgs.length)]
      congr 1
      omega
    · rw [show (group msgs true).1 = msgs.reverse from rfl,
        List.getElem?_reverse (by omega : msgs.length - j < msgs.length)]
      congr 1
      omega
    · exact List.mem_map_of_mem (fun i => msgs.length - i) hj0

/-- C4 witness: the reverse-chronological pair `exRevList` (one flagged
continuation at forward position 1) instantiates the reversal properties. -/
theorem c4_reverse_reindex_witness :
    ((group exRevList true).1 = (group exRevList false).1.reverse ∧
     (group exRevList true).2 = (group exRevList false).2.map (fun i => exRevList.length - i) ∧
     (group exRevList true).2.length = (group exRevList false).2.length) ∧
    (0 < 1 ∧ 1 < exRevList.length ∧
     (group exRevList true).1[exRevList.length - 1 - 1]? = exRevList[1]? ∧
     (group exRevList true).1[exRevList.length - 1]? = exRevList[1 - 1]? ∧
     exRevList.length - 1 ∈ (group exRevList true).2) :=
  ⟨(c4_reverse_reindex exRevList).1,
   (c4_reverse_reindex exRevList).2 1 (by decide)⟩

/-- C5: over one archive run started with empty caches, the identity service
is queried at most once per unique sender email (a 404 placeholder counts
as a cached result), the `people` cache holds at most one entry per email,
and every email occurring among the processed messages of a successful run
is looked up exactly once. -/
theorem c5_lookup_once (svc : String → LookupOutcome) (msgs : List Message)
    (st' : PeopleState) (h : processPeople svc msgs ⟨[], []⟩ = .ok st') :
    (∀ e, (st'.people.map Prod.fst).count e ≤ 1) ∧
    (∀ e, st'.lookups.count e ≤ 1) ∧
    (∀ e, (∃ m ∈ msgs, m.personEmail = e) → st'.lookups.count e = 1) := by
  obtain ⟨hkeys, hnd, hmem⟩ :=
    processPeople_inv svc msgs ⟨[], []⟩ st' h rfl List.nodup_nil
  refine ⟨?_, ?_, ?_⟩
  · intro f
    rw [hkeys]
    exact List.nodup_iff_count_le_one.mp hnd f
  · exact List.nodup_iff_count_le_one.mp hnd
  · rintro f ⟨m, hm, rfl⟩
    exact List.count_eq_one_of_mem hnd ((hmem m.personEmail).mpr (.inr ⟨m, hm, rfl⟩))

/-- C5 witness: two messages from `a@x.com` against a service that reports
404 end with the placeholder cached once and exactly one lookup issued. -/
theorem c5_lookup_once_witness :
    (exPeopleState.people.map Prod.fst).count "a@x.com" ≤ 1 ∧
    exPeopleState.lookups.count "a@x.com" ≤ 1 ∧
    exPeopleState.lookups.count "a@x.com" = 1 :=
  have h : processPeople svcNotFound exSameSender ⟨[], []⟩ = .ok exPeopleState := rfl
  ⟨(c5_lookup_once svcNotFound exSameSender exPeopleState h).1 "a@x.com",
   (c5_lookup_once svcNotFound exSameSender exPeopleState h).2.1 "a@x.com",
   (c5_lookup_once svcNotFound exSameSender exPeopleState h).2.2 "a@x.com"
     ⟨⟨"a@x.com", "p1", 100, []⟩, by decide, rfl⟩⟩

/-- C6 counterexample: a GET that completes with HTTP status 404 — a failed
download in the claim's sense — does not fail `download_files`: no status
check is performed, the error page's body is written to the destination
file, and the operation reports success. -/
theorem c6_claim_counterexample :
    specDownloadFailed (netStatus404 "https://files/u1") = true ∧
    (download_files netStatus404 [("https://files/u1", "u1.bin")] []).2 = none ∧
    (download_files netStatus404 [("https://files/u1", "u1.bin")] []).1 =
      [("u1.bin", "Not Found")] := by
  decide

/-- C6 (amended): `download_files` fails (and surfaces an exception to the
caller, with no retry and no partial-success mode) iff some submitted URL's
GET raises an exception — a network/transport error; a completed response
with a non-success HTTP status is not detected as a failure. -/
theorem c6_failure_iff_exception (net : String → Except PyExc DLResponse)
    (links fs : List (String × String)) :
    (download_files net links fs).2.isSome = true ↔
      ∃ p ∈ links, ∃ e, net p.1 = .error e :=
  download_files_isSome_iff net links fs

/-- C6 witness: a network on which every GET raises makes the whole
operation fail. -/
theorem c6_failure_iff_exception_witness :
    (download_files netRaises [("u", "f")] []).2.isSome = true :=
  (c6_failure_iff_exception netRaises [("u", "f")] []).mpr
    ⟨("u", "f"), by decide, .exc 9, rfl⟩

/-- C7: a HEAD response of 404 makes `file_details` return the record
`File("", 0, "", "", True)` — `deleted = true` with empty/zero remaining
fields — without raising. -/
theorem c7_deleted_file (url : String) (r : HeadResponse)
    (h : r.status_code = 404) :
    file_details url r = .ok ⟨"", .int 0, "", "", true⟩ := by
  simp [file_details, h]

/-- C7 witness: instance of the 404 branch on a concrete response. -/
theorem c7_deleted_file_witness :
    file_details "https://files/u1" respDeleted = .ok ⟨"", .int 0, "", "", true⟩ :=
  c7_deleted_file "https://files/u1" respDeleted rfl

/-- C8: when the HEAD request succeeds (status neither 404 nor in the
`raise_for_status` range `[400, 600)`) but the content-disposition header
has no parsable `filename=\"...\"` group, `file_details` raises
`MalformedResponse` — the spec's *MalformedMetadataError* — whose message
ends with the offending URL, instead of returning a record. -/
theorem c8_malformed_metadata (url : String) (r : HeadResponse)
    (h404 : r.status_code ≠ 404)
    (hok : ¬ (400 ≤ r.status_code ∧ r.status_code < 600))
    (hno : findFilename (r.content_disposition.getD "").toList = none) :
    file_details url r =
      .error (.malformedResponse
        ("Failed to find filename='' in " ++ r.content_disposition.getD "" ++
          " for url " ++ url)) ∧
    ∃ pre, ("Failed to find filename='' in " ++ r.content_disposition.getD "" ++
        " for url " ++ url) = pre ++ url := by
  have h1 : (r.status_code == 404) = false := beq_eq_false_iff_ne.mpr h404
  have hno' : findFilename (r.content_disposition.getD "").data = none := hno
  constructor
  · simp [file_details, h1, hok, hno']
  · exact ⟨"Failed to find filename='' in " ++ r.content_disposition.getD "" ++
      " for url ", rfl⟩

/-- C8 witness: a success response whose content-disposition is the bare
token `attachment` triggers the `MalformedResponse` naming the URL. -/
theorem c8_malformed_metadata_witness :
    (file_details "https://files/u1" respNoFilename =
      .error (.malformedResponse
        ("Failed to find filename='' in " ++ respNoFilename.content_disposition.getD "" ++
          " for url " ++ "https://files/u1"))) ∧
    ∃ pre, ("Failed to find filename='' in " ++ respNoFilename.content_disposition.getD "" ++
        " for url " ++ "https://files/u1") = pre ++ "https://files/u1" :=
  c8_malformed_metadata "https://files/u1" respNoFilename (by decide) (by decide)
    (by decide)

/-- C9: when a directory of the archive-folder name exists, `_setup_folder`
with `overwrite_folder` set removes it and creates a fresh empty one, and
without `overwrite_folder` it raises `FileExistsError` (the spec's
*ConflictError*) leaving the existing directory in place. -/
theorem c9_setup_folder (d : Disk) (f : FolderTree) (h : d.folder = some f) :
    setup_folder true d = ({ d with folder := some { populated := false } }, none) ∧
    setup_folder false d = (d, some .fileExistsError) := by
  constructor <;> simp [setup_folder, h]

/-- C9 witness: instance on a disk carrying a populated folder. -/
theorem c9_setup_folder_witness :
    setup_folder true diskWithFolder =
      ({ diskWithFolder with folder := some { populated := false } }, none) ∧
    setup_folder false diskWithFolder = (diskWithFolder, some .fileExistsError) :=
  c9_setup_folder diskWithFolder ⟨true⟩ rfl

/-- C10: when `_archive` succeeds and `tar.add` raises after
`tarfile.open` has created the tgz file, the failure path removes the
archive folder but leaves the partially-written tgz on disk (teardown
never touches the tgz), and the compression exception is re-raised. -/
theorem c10_partial_tgz_survives (step : FolderTree → FolderTree × Option PyExc)
    (ow del : Bool) (d : Disk) (e : PyExc)
    (hset : (setup_folder ow d).2 = none)
    (harch : (applyArchive step (setup_folder ow d).1).2 = none) :
    archive_room step (some e) ow del d = (⟨none, some false⟩, .error e) ∧
    ∀ x : Disk, (tear_down_folder x).tgz = x.tgz := by
  rcases hs : setup_folder ow d with ⟨d1, e1⟩
  rw [hs] at hset harch
  have he1 : e1 = none := hset
  subst he1
  rcases ha : applyArchive step d1 with ⟨d2, e2⟩
  rw [show (d1, (none : Option PyExc)).1 = d1 from rfl, ha] at harch
  have he2 : e2 = none := harch
  subst he2
  refine ⟨?_, tear_down_folder_tgz⟩
  simp only [archive_room, hs, ha, compress_folder]
  unfold tear_down_folder
  cases hd2 : d2.folder <;> simp [hd2]

/-- C10 witness: a successful `_archive` followed by a failing `tar.add` on
the empty disk ends with the folder gone, a partial tgz on disk, and the
compression exception surfaced. -/
theorem c10_partial_tgz_survives_witness :
    archive_room okArchiveStep (some (.exc 5)) true false emptyDisk =
      (⟨none, some false⟩, .error (.exc 5)) :=
  (c10_partial_tgz_survives okArchiveStep true false emptyDisk (.exc 5)
    (by decide) (by decide)).1

end WebexArchiver
